import Mathlib

/-!
Verification development for the surrogate-assisted Bayesian calibration
scripts of this repository.  The embedded code comes from
src/energyplus-mcp-server/fault_detection_bayesian.py (classes
SimpleInterpolator and FaultDetector), src/energyplus-mcp-server/
new_jersey_fault_detection.py (NewJerseyFaultDetector, identical in the
embedded parts), and src/raven_enhancements/adaptive_sampling.py
(AdaptiveSampler).

Modelling conventions: python float arithmetic is modelled over the real
numbers; the exact decimal grid arithmetic of the training loop
(np.linspace over 0.5 .. 2.0) is modelled over the rationals, where it is
exact.  The numpy random streams are passed in explicitly: a call
np.random.uniform(lo, hi) is modelled as lo + u * (hi - lo) for a
unit-interval draw u taken from the stream (numpy documents uniform as
sampling from the half-open interval), and np.random.rand() draws are a
stream of values in the half-open unit interval.  Vectorized numpy
expressions become elementwise List operations.
-/

set_option maxHeartbeats 1000000

namespace Calib

/-- Embedding of np.linspace(lo, hi, n): n evenly spaced points from lo to
hi inclusive, step (hi - lo) / (n - 1); a single sample is just lo. -/
def linspace (lo hi : ℚ) (n : ℕ) : List ℚ :=
  if n = 1 then [lo]
  else (List.range n).map fun i : ℕ => lo + (hi - lo) * (i : ℚ) / ((n : ℚ) - 1)

/-- Embedding of the training loop of FaultDetector.build_surrogate_model
(fault_detection_bayesian.py lines 160 to 167): for each grid value call
run_mcp_simulation and append (value, energy) to the training data.  The
simulator is fallible (run_mcp_simulation raises on unparsable output); an
exception propagates out of the python for loop, which the Except monad
models: the first failure aborts the whole build and no training set is
returned. -/
def runTrainingLoop (simulate : ℚ → Except Unit ℚ) : List ℚ → Except Unit (List (ℚ × ℚ))
  | [] => .ok []
  | x :: rest => do
      let y ← simulate x
      let tail ← runTrainingLoop simulate rest
      .ok ((x, y) :: tail)

/-- Embedding of FaultDetector.build_surrogate_model sampling schedule
(fault_detection_bayesian.py line 158): the parameter grid is
np.linspace(0.5, 2.0, n_samples), then the training loop runs over it. -/
def buildSurrogateTrainingData (simulate : ℚ → Except Unit ℚ) (nSamples : ℕ) :
    Except Unit (List (ℚ × ℚ)) :=
  runTrainingLoop simulate (linspace (1/2) 2 nSamples)

/-- Test evaluator from the failure-skip scenario of the spec: it fails
deterministically on x > 1.8 and otherwise returns a scalar outcome. -/
def failingEvaluator (x : ℚ) : Except Unit ℚ :=
  if 9/5 < x then .error () else .ok (100 * x)

lemma runTrainingLoop_error_of_mem (simulate : ℚ → Except Unit ℚ) :
    ∀ (xs : List ℚ) (x : ℚ), x ∈ xs → simulate x = .error () →
      runTrainingLoop simulate xs = .error () := by
  intro xs
  induction xs with
  | nil => intro x hx; exact absurd hx (List.not_mem_nil x)
  | cons a rest ih =>
      intro x hx herr
      rcases List.mem_cons.mp hx with h | h
      · subst h
        simp [runTrainingLoop, herr, Bind.bind, Except.bind]
      · cases ha : simulate a with
        | error e => cases e; simp [runTrainingLoop, ha, Bind.bind, Except.bind]
        | ok y =>
            have := ih x h herr
            simp [runTrainingLoop, ha, this, Bind.bind, Except.bind]

lemma two_mem_linspace8 : (2 : ℚ) ∈ linspace (1/2) 2 8 := by
  rw [linspace, if_neg (by norm_num)]
  simp only [List.mem_map, List.mem_range]
  refine ⟨7, ?_, ?_⟩
  · norm_num
  · norm_num

lemma failingEvaluator_two : failingEvaluator 2 = .error () := by
  rw [failingEvaluator, if_pos (by norm_num)]

/-- C3 (counterexample): with the evaluator that fails deterministically on
x > 1.8 and the standard n_samples = 8 grid (whose last point is 2.0), the
embedded build_surrogate_model run returns an error: the failure is not
skipped, no budget counter advances past it, and the loop does not continue
to further attempts, contradicting the claimed skip-and-continue behavior. -/
theorem build_surrogate_aborts_on_failure_cex :
    buildSurrogateTrainingData failingEvaluator 8 = .error () :=
  runTrainingLoop_error_of_mem failingEvaluator (linspace (1/2) 2 8) 2
    two_mem_linspace8 failingEvaluator_two

/-- C3 (amended): when any grid point makes the evaluator fail, the whole
build_surrogate_model run aborts with that failure: the exception
propagates out of the training loop, no training set is produced (so the
failed point is indeed never added, but neither are the remaining points),
and there is no budget counter that keeps counting attempts. -/
theorem build_surrogate_aborts_on_failure (simulate : ℚ → Except Unit ℚ)
    (nSamples : ℕ) (x : ℚ) (hx : x ∈ linspace (1/2) 2 nSamples)
    (herr : simulate x = .error ()) :
    buildSurrogateTrainingData simulate nSamples = .error () :=
  runTrainingLoop_error_of_mem simulate (linspace (1/2) 2 nSamples) x hx herr

/-- Witness for the amended C3 theorem at the concrete failing input
x = 2.0 of the 8-point grid. -/
theorem build_surrogate_aborts_on_failure_witness :
    (2 : ℚ) ∈ linspace (1/2) 2 8 ∧ failingEvaluator 2 = .error () ∧
      buildSurrogateTrainingData failingEvaluator 8 = .error () :=
  ⟨two_mem_linspace8, failingEvaluator_two,
    build_surrogate_aborts_on_failure failingEvaluator 8 2 two_mem_linspace8
      failingEvaluator_two⟩

/-- Embedding of the piecewise linear segment formula used by np.interp:
between the points (x0, y0) and (x1, y1) the value at x is
y0 + (y1 - y0) * (x - x0) / (x1 - x0). -/
noncomputable def interpSegment (x x0 y0 x1 y1 : ℝ) : ℝ :=
  y0 + (y1 - y0) * (x - x0) / (x1 - x0)

/-- Walk of np.interp over the remaining sorted breakpoints, carrying the
previous breakpoint: past the last breakpoint the last ordinate is
returned. -/
noncomputable def interpFrom (x : ℝ) : ℝ × ℝ → List (ℝ × ℝ) → ℝ
  | p, [] => p.2
  | p, q :: rest => if x ≤ q.1 then interpSegment x p.1 p.2 q.1 q.2
      else interpFrom x q rest

/-- Embedding of np.interp(x, xp, fp) on the sorted breakpoint list: below
the first breakpoint the first ordinate is returned, above the last the
last ordinate, linear interpolation in between (an empty breakpoint list
never occurs in the scripts). -/
noncomputable def npInterp (x : ℝ) : List (ℝ × ℝ) → ℝ
  | [] => 0
  | p :: rest => if x ≤ p.1 then p.2 else interpFrom x p rest

/-- Embedding of the distance computation of SimpleInterpolator.predict
(fault_detection_bayesian.py line 42, identical in
new_jersey_fault_detection.py line 36): the minimum over the training
abscissas of the absolute difference to the query point. -/
noncomputable def minDistToTrain (x : ℝ) : List ℝ → ℝ
  | [] => 0
  | t :: rest => rest.foldl (fun a b => min a |x - b|) |x - t|

/-- Embedding of the uncertainty heuristic of SimpleInterpolator.predict
(line 43): std = 5000 * (1 + distances * 5). -/
noncomputable def interpStd (x : ℝ) (xTrain : List ℝ) : ℝ :=
  5000 * (1 + minDistToTrain x xTrain * 5)

/-- Embedding of SimpleInterpolator.predict with return_std=True (lines 36
to 44): the mean is np.interp over the stored sorted training pairs, the
std is the distance-based heuristic.  The constructor stores X and y
sorted by X; the std component does not depend on the order. -/
noncomputable def simpleInterpolatorPredict (xs ys : List ℝ) (x : ℝ) : ℝ × ℝ :=
  (npInterp x (xs.zip ys), interpStd x xs)

lemma foldl_min_le_init (x : ℝ) (rest : List ℝ) :
    ∀ a : ℝ, rest.foldl (fun a b => min a |x - b|) a ≤ a := by
  induction rest with
  | nil => intro a; simp
  | cons c cs ih =>
      intro a
      calc cs.foldl (fun a b => min a |x - b|) (min a |x - c|) ≤ min a |x - c| := ih _
        _ ≤ a := min_le_left _ _

lemma foldl_min_le_mem (x : ℝ) (rest : List ℝ) :
    ∀ (a t : ℝ), t ∈ rest → rest.foldl (fun a b => min a |x - b|) a ≤ |x - t| := by
  induction rest with
  | nil => intro a t ht; exact absurd ht (List.not_mem_nil t)
  | cons c cs ih =>
      intro a t ht
      rcases List.mem_cons.mp ht with h | h
      · subst h
        calc cs.foldl (fun a b => min a |x - b|) (min a |x - t|) ≤ min a |x - t| :=
              foldl_min_le_init x cs _
          _ ≤ |x - t| := min_le_right _ _
      · exact ih _ t h

lemma foldl_min_nonneg (x : ℝ) (rest : List ℝ) :
    ∀ a : ℝ, 0 ≤ a → 0 ≤ rest.foldl (fun a b => min a |x - b|) a := by
  induction rest with
  | nil => intro a ha; simpa using ha
  | cons c cs ih =>
      intro a ha
      exact ih _ (le_min ha (abs_nonneg _))

lemma minDistToTrain_nonneg (x : ℝ) (xs : List ℝ) : 0 ≤ minDistToTrain x xs := by
  cases xs with
  | nil => simp [minDistToTrain]
  | cons t rest => exact foldl_min_nonneg x rest _ (abs_nonneg _)

lemma minDistToTrain_eq_zero_of_mem (x : ℝ) (xs : List ℝ) (hx : x ∈ xs) :
    minDistToTrain x xs = 0 := by
  have hle : minDistToTrain x xs ≤ 0 := by
    cases xs with
    | nil => simp [minDistToTrain]
    | cons t rest =>
        rcases List.mem_cons.mp hx with h | h
        · subst h
          calc rest.foldl (fun a b => min a |x - b|) |x - x| ≤ |x - x| :=
                foldl_min_le_init x rest _
            _ = 0 := by simp
        · calc rest.foldl (fun a b => min a |x - b|) |x - t| ≤ |x - x| :=
              foldl_min_le_mem x rest _ x h
            _ = 0 := by simp
  exact le_antisymm hle (minDistToTrain_nonneg x xs)

/-- C9: the fallback SimpleInterpolator returns, at every query point, a
strictly positive predictive std: std is 5000 * (1 + 5 * distance to the
nearest training point), so it is bounded below by the fixed positive
floor 5000, it is non-decreasing in the distance to the nearest training
point, and it equals the floor 5000 exactly at the training points. -/
theorem simple_interpolator_std_positive_monotone (xs ys : List ℝ)
    (hne : xs ≠ []) (x1 x2 : ℝ) :
    0 < (simpleInterpolatorPredict xs ys x1).2 ∧
      5000 ≤ (simpleInterpolatorPredict xs ys x1).2 ∧
      (minDistToTrain x1 xs ≤ minDistToTrain x2 xs →
        (simpleInterpolatorPredict xs ys x1).2 ≤ (simpleInterpolatorPredict xs ys x2).2) ∧
      (x1 ∈ xs → (simpleInterpolatorPredict xs ys x1).2 = 5000) := by
  have h1 := minDistToTrain_nonneg x1 xs
  refine ⟨?_, ?_, ?_, ?_⟩
  · simp only [simpleInterpolatorPredict, interpStd]
    nlinarith
  · simp only [simpleInterpolatorPredict, interpStd]
    nlinarith
  · intro hmono
    simp only [simpleInterpolatorPredict, interpStd]
    nlinarith
  · intro hx
    simp only [simpleInterpolatorPredict, interpStd,
      minDistToTrain_eq_zero_of_mem x1 xs hx]
    norm_num

/-- Witness for the C9 theorem on the concrete training set X = [1, 2]
with query points 1 (a training point, floor distance 0) and 3 (distance 1
from the nearest training point). -/
theorem simple_interpolator_std_witness :
    (([1, 2] : List ℝ) ≠ []) ∧ ((1 : ℝ) ∈ ([1, 2] : List ℝ)) ∧
      minDistToTrain (1 : ℝ) [1, 2] ≤ minDistToTrain (3 : ℝ) [1, 2] ∧
      0 < (simpleInterpolatorPredict [1, 2] [10, 20] 1).2 ∧
      (simpleInterpolatorPredict [1, 2] [10, 20] 1).2 ≤
        (simpleInterpolatorPredict [1, 2] [10, 20] 3).2 ∧
      (simpleInterpolatorPredict [1, 2] [10, 20] 1).2 = 5000 := by
  have hne : ([1, 2] : List ℝ) ≠ [] := by simp
  have hmem : (1 : ℝ) ∈ ([1, 2] : List ℝ) := by simp
  have hd1 : minDistToTrain (1 : ℝ) [1, 2] = 0 :=
    minDistToTrain_eq_zero_of_mem 1 [1, 2] hmem
  have hd2 : (0 : ℝ) ≤ minDistToTrain (3 : ℝ) [1, 2] := minDistToTrain_nonneg 3 [1, 2]
  have hdle : minDistToTrain (1 : ℝ) [1, 2] ≤ minDistToTrain (3 : ℝ) [1, 2] := by
    rw [hd1]; exact hd2
  have h := simple_interpolator_std_positive_monotone [1, 2] [10, 20] hne 1 3
  exact ⟨hne, hmem, hdle, h.1, h.2.2.1 hdle, h.2.2.2 hmem⟩

/-- Embedding of np.random.uniform(lb, ub) applied to a unit-interval draw
u: the sampled value is lb + u * (ub - lb).  This is also the per-dimension
scaling applied to the Latin Hypercube unit samples in
AdaptiveSampler.initialize_lhs (adaptive_sampling.py line 72). -/
noncomputable def scaleUnit (lb ub u : ℝ) : ℝ := lb + u * (ub - lb)

/-- Scaling of one whole unit-cube sample to the declared parameter
bounds, dimension by dimension (adaptive_sampling.py lines 71 to 72 for
the initial design; lines 170 to 173 draw candidates coordinatewise with
np.random.uniform(lb, ub), which is the same affine image of a unit
draw). -/
noncomputable def scaledPoint (bounds : List (ℝ × ℝ)) (unit : List ℝ) : List ℝ :=
  List.zipWith (fun b u => scaleUnit b.1 b.2 u) bounds unit

/-- Embedding of np.min over a nonempty array, with 0 for the empty array
(numpy raises there; the scripts never reach that case). -/
noncomputable def listMin (xs : List ℝ) : ℝ := xs.min?.getD 0

/-- Embedding of np.max over a nonempty array, with 0 for the empty array
(numpy raises there; the scripts never reach that case). -/
noncomputable def listMax (xs : List ℝ) : ℝ := xs.max?.getD 0

/-- Mutable state of AdaptiveSampler: the training inputs X_train, the
outcomes y_train, and the best (minimal) observed outcome y_best. -/
structure SamplerState where
  xTrain : List (List ℝ)
  yTrain : List ℝ
  yBest : ℝ

/-- Embedding of AdaptiveSampler.initialize_lhs (adaptive_sampling.py
lines 57 to 90): scale the Latin Hypercube unit samples to the declared
bounds, run the simulator on every scaled point, record every outcome, and
set y_best to the minimum outcome.  The Gaussian Process refit at the end
touches no training data and is abstracted away. -/
noncomputable def initializeLHS (bounds : List (ℝ × ℝ)) (simulator : List ℝ → ℝ)
    (unitSamples : List (List ℝ)) : SamplerState :=
  let pts := unitSamples.map (scaledPoint bounds)
  { xTrain := pts
    yTrain := pts.map simulator
    yBest := listMin (pts.map simulator) }

/-- Embedding of one iteration of AdaptiveSampler.run_adaptive_sampling
(adaptive_sampling.py lines 164 to 205): draw a fresh candidate pool
inside the bounds, let the acquisition policy pick an index (the policy is
a parameter standing for the acquisition function evaluated against the
surrogate refit from the current training set), run the simulator at the
chosen point, append the point and its outcome, and update y_best. -/
noncomputable def adaptiveStep (bounds : List (ℝ × ℝ)) (simulator : List ℝ → ℝ)
    (acquire : SamplerState → List (List ℝ) → ℕ) (candUnit : List (List ℝ))
    (st : SamplerState) : SamplerState :=
  let cands := candUnit.map (scaledPoint bounds)
  let nextPoint := cands.getD (acquire st cands) []
  let energy := simulator nextPoint
  { xTrain := st.xTrain ++ [nextPoint]
    yTrain := st.yTrain ++ [energy]
    yBest := if energy < st.yBest then energy else st.yBest }

/-- Embedding of the main loop of AdaptiveSampler.run_adaptive_sampling:
for iteration in range(max_iterations) perform one adaptive step.  The
candidate stream supplies the unit draws of each iteration.  There is no
other exit from the python for loop. -/
noncomputable def runAdaptiveSampling (bounds : List (ℝ × ℝ)) (simulator : List ℝ → ℝ)
    (acquire : SamplerState → List (List ℝ) → ℕ) :
    (ℕ → List (List ℝ)) → ℕ → SamplerState → SamplerState
  | _, 0, st => st
  | candStream, k + 1, st =>
      runAdaptiveSampling bounds simulator acquire (fun i => candStream (i + 1)) k
        (adaptiveStep bounds simulator acquire (candStream 0) st)

lemma runAdaptiveSampling_yTrain_length (bounds : List (ℝ × ℝ))
    (simulator : List ℝ → ℝ) (acquire : SamplerState → List (List ℝ) → ℕ) :
    ∀ (candStream : ℕ → List (List ℝ)) (k : ℕ) (st : SamplerState),
      (runAdaptiveSampling bounds simulator acquire candStream k st).yTrain.length =
        st.yTrain.length + k := by
  intro candStream k
  induction k generalizing candStream with
  | zero => intro st; simp [runAdaptiveSampling]
  | succ m ih =>
      intro st
      rw [runAdaptiveSampling, ih]
      simp [adaptiveStep]
      omega

lemma initializeLHS_yTrain_length (bounds : List (ℝ × ℝ)) (simulator : List ℝ → ℝ)
    (unitSamples : List (List ℝ)) :
    (initializeLHS bounds simulator unitSamples).yTrain.length = unitSamples.length := by
  simp [initializeLHS]

/-- C2 (amended): every simulator invocation appends exactly one outcome
to y_train, and the loop of run_adaptive_sampling always performs exactly
max_iterations acquisition iterations (one evaluator call each) after the
n_initial initial-design calls, regardless of any budget: the total number
of evaluator calls is n_initial + max_iterations, not max_iterations, and
nothing stops the loop when a previously fixed evaluation budget is
reached. -/
theorem adaptive_sampling_total_evaluations (bounds : List (ℝ × ℝ))
    (simulator : List ℝ → ℝ) (acquire : SamplerState → List (List ℝ) → ℕ)
    (unitSamples : List (List ℝ)) (candStream : ℕ → List (List ℝ))
    (maxIterations : ℕ) :
    (runAdaptiveSampling bounds simulator acquire candStream maxIterations
        (initializeLHS bounds simulator unitSamples)).yTrain.length =
      unitSamples.length + maxIterations := by
  rw [runAdaptiveSampling_yTrain_length, initializeLHS_yTrain_length]

/-- C2 (counterexample): a run with max_iterations = 15 and n_initial = 10
performs 15 acquisition iterations, one evaluator call each, for a total
of 25 evaluator calls — not 15 total calls and not 5 acquisition
iterations as the claim states. -/
theorem adaptive_sampling_budget_cex :
    (runAdaptiveSampling [(0, 1)] (fun _ => 0) (fun _ _ => 0) (fun _ => [[0]]) 15
        (initializeLHS [(0, 1)] (fun _ => 0) (List.replicate 10 [0]))).yTrain.length = 25 ∧
      (runAdaptiveSampling [(0, 1)] (fun _ => 0) (fun _ _ => 0) (fun _ => [[0]]) 15
          (initializeLHS [(0, 1)] (fun _ => 0) (List.replicate 10 [0]))).yTrain.length ≠ 15 ∧
      (runAdaptiveSampling [(0, 1)] (fun _ => 0) (fun _ _ => 0) (fun _ => [[0]]) 15
            (initializeLHS [(0, 1)] (fun _ => 0) (List.replicate 10 [0]))).yTrain.length -
          (initializeLHS [(0, 1)] (fun _ => 0)
            (List.replicate 10 [0])).yTrain.length = 15 := by
  rw [runAdaptiveSampling_yTrain_length, initializeLHS_yTrain_length]
  simp

/-- Coordinatewise bounds predicate: every coordinate of the vector lies
within the declared lower and upper bound of its parameter, inclusive. -/
def inBounds (bounds : List (ℝ × ℝ)) (p : List ℝ) : Prop :=
  ∀ i, i < p.length →
    (bounds.getD i (0, 0)).1 ≤ p.getD i 0 ∧ p.getD i 0 ≤ (bounds.getD i (0, 0)).2

lemma scaleUnit_mem_Icc (lb ub u : ℝ) (hlu : lb ≤ ub) (h0 : 0 ≤ u) (h1 : u ≤ 1) :
    lb ≤ scaleUnit lb ub u ∧ scaleUnit lb ub u ≤ ub := by
  constructor
  · simp only [scaleUnit]
    nlinarith
  · simp only [scaleUnit]
    nlinarith

lemma scaledPoint_inBounds (bounds : List (ℝ × ℝ)) (unit : List ℝ)
    (hb : ∀ b ∈ bounds, b.1 ≤ b.2) (hu : ∀ v ∈ unit, 0 ≤ v ∧ v ≤ 1) :
    inBounds bounds (scaledPoint bounds unit) := by
  intro i hi
  have hlen : (scaledPoint bounds unit).length = min bounds.length unit.length := by
    simp [scaledPoint]
  have hib : i < bounds.length := lt_of_lt_of_le (hlen ▸ hi) (min_le_left _ _)
  have hiu : i < unit.length := lt_of_lt_of_le (hlen ▸ hi) (min_le_right _ _)
  have hgd : (scaledPoint bounds unit).getD i 0 =
      scaleUnit (bounds[i].1) (bounds[i].2) (unit[i]) := by
    rw [List.getD_eq_getElem _ _ hi]
    simp [scaledPoint]
  have hgb : bounds.getD i (0, 0) = bounds[i] := List.getD_eq_getElem _ _ hib
  have hbm : bounds[i].1 ≤ bounds[i].2 := hb _ (List.getElem_mem hib)
  have hum := hu _ (List.getElem_mem hiu)
  rw [hgd, hgb]
  exact scaleUnit_mem_Icc _ _ _ hbm hum.1 hum.2

/-- C6: every vector produced by the space-filling initial design of
initialize_lhs and every vector of the uniform candidate pool of
run_adaptive_sampling has all coordinates inside the declared [lower,
upper] bounds of its parameter, inclusive, and a uniform prior draw scaled
by lower + u * (upper - lower) from a unit draw in [0, 1] likewise stays
inside the bounds. -/
theorem initial_design_and_candidates_in_bounds (bounds : List (ℝ × ℝ))
    (simulator : List ℝ → ℝ) (unitSamples candUnit : List (List ℝ))
    (hb : ∀ b ∈ bounds, b.1 ≤ b.2)
    (hu : ∀ u ∈ unitSamples, ∀ v ∈ u, 0 ≤ v ∧ v ≤ 1)
    (hc : ∀ u ∈ candUnit, ∀ v ∈ u, 0 ≤ v ∧ v ≤ 1) :
    (∀ p ∈ (initializeLHS bounds simulator unitSamples).xTrain, inBounds bounds p) ∧
      (∀ p ∈ candUnit.map (scaledPoint bounds), inBounds bounds p) := by
  constructor
  · intro p hp
    simp only [initializeLHS, List.mem_map] at hp
    obtain ⟨u, hu2, rfl⟩ := hp
    exact scaledPoint_inBounds bounds u hb (hu u hu2)
  · intro p hp
    simp only [List.mem_map] at hp
    obtain ⟨u, hu2, rfl⟩ := hp
    exact scaledPoint_inBounds bounds u hb (hc u hu2)

/-- Witness for the C6 theorem: the one-dimensional parameter space with
bounds [0, 2], one initial-design unit draw 1/2 and one candidate unit
draw 1/4. -/
theorem initial_design_in_bounds_witness :
    inBounds [(0, 2)] (scaledPoint [(0, 2)] [1/2]) ∧
      inBounds [(0, 2)] (scaledPoint [(0, 2)] [1/4]) := by
  have hb : ∀ b ∈ ([((0 : ℝ), (2 : ℝ))] : List (ℝ × ℝ)), b.1 ≤ b.2 := by
    intro b hb2
    simp only [List.mem_singleton] at hb2
    subst hb2
    norm_num
  have hu : ∀ u ∈ ([[(1 : ℝ)/2]] : List (List ℝ)), ∀ v ∈ u, 0 ≤ v ∧ v ≤ 1 := by
    intro u hu2 v hv
    simp only [List.mem_singleton] at hu2
    subst hu2
    simp only [List.mem_singleton] at hv
    subst hv
    norm_num
  have hc : ∀ u ∈ ([[(1 : ℝ)/4]] : List (List ℝ)), ∀ v ∈ u, 0 ≤ v ∧ v ≤ 1 := by
    intro u hu2 v hv
    simp only [List.mem_singleton] at hu2
    subst hu2
    simp only [List.mem_singleton] at hv
    subst hv
    norm_num
  have h := initial_design_and_candidates_in_bounds [(0, 2)] (fun _ => 0)
    [[1/2]] [[1/4]] hb hu hc
  refine ⟨?_, ?_⟩
  · exact h.1 _ (by simp [initializeLHS])
  · exact h.2 _ (by simp)

/-- Embedding of the scanning loop behind np.argmax: walk the remaining
entries carrying the next index, the best index so far, and the best value
so far, replacing the best only on a strictly larger value, so that the
first occurrence of the maximum wins, as numpy documents. -/
def argmaxFrom {α : Type} [LinearOrder α] : List α → ℕ → ℕ → α → ℕ
  | [], _, best, _ => best
  | a :: rest, i, best, bv =>
      if bv < a then argmaxFrom rest (i + 1) i a
      else argmaxFrom rest (i + 1) best bv

/-- Embedding of np.argmax: index of the first occurrence of the maximum
entry (numpy raises on an empty array; 0 is returned here, never reached
by the scripts). -/
def argmaxList {α : Type} [LinearOrder α] : List α → ℕ
  | [] => 0
  | a :: rest => argmaxFrom rest 1 0 a

/-- Standard normal probability density, the scipy.stats.norm.pdf used by
acquisition_expected_improvement. -/
noncomputable def normPdf (z : ℝ) : ℝ :=
  Real.exp (-(z ^ 2) / 2) / Real.sqrt (2 * Real.pi)

/-- Standard normal cumulative distribution, the scipy.stats.norm.cdf used
by acquisition_expected_improvement, as the integral of the density. -/
noncomputable def normCdf (z : ℝ) : ℝ := ∫ t in Set.Iic z, normPdf t

/-- Embedding of the Expected Improvement score vector of
AdaptiveSampler.acquisition_expected_improvement (adaptive_sampling.py
lines 126 to 131): improvement = y_best - mu - xi, Z = improvement /
sigma, EI = improvement * cdf(Z) + sigma * pdf(Z), and the final masking
ei[sigma == 0.0] = 0.0, so an entry with sigma = 0 scores exactly 0. -/
noncomputable def eiScores (mu sigma : List ℝ) (yBest xi : ℝ) : List ℝ :=
  List.zipWith (fun m s =>
    if s = 0 then 0
    else (yBest - m - xi) * normCdf ((yBest - m - xi) / s) +
      s * normPdf ((yBest - m - xi) / s)) mu sigma

/-- Embedding of AdaptiveSampler.acquisition_expected_improvement (lines
112 to 132): return ei.argmax(). -/
noncomputable def acquisitionExpectedImprovement (mu sigma : List ℝ)
    (yBest xi : ℝ) : ℕ :=
  argmaxList (eiScores mu sigma yBest xi)

/-- Embedding of AdaptiveSampler.acquisition_max_uncertainty (lines 103 to
110): return std.argmax(). -/
noncomputable def acquisitionMaxUncertainty (sigma : List ℝ) : ℕ :=
  argmaxList sigma

lemma normPdf_pos (z : ℝ) : 0 < normPdf z := by
  rw [normPdf]
  have h1 : 0 < Real.exp (-(z ^ 2) / 2) := Real.exp_pos _
  have h2 : 0 < Real.sqrt (2 * Real.pi) :=
    Real.sqrt_pos.mpr (by positivity)
  positivity

lemma normCdf_nonneg (z : ℝ) : 0 ≤ normCdf z := by
  rw [normCdf]
  exact MeasureTheory.setIntegral_nonneg measurableSet_Iic
    fun t _ => (normPdf_pos t).le

/-- C4: the Expected Improvement acquisition computes EI = (best - mean -
xi) * cdf(Z) + std * pdf(Z) with Z = (best - mean - xi) / std, scores
exactly 0 where std = 0, and selects the candidate of maximal EI: with
best = 100 and xi = 0.01, candidate A (mean 90, std 5) scores EI(A) > 0 =
EI(B) for candidate B (mean 100, std 0), and argmax selects A. -/
theorem expected_improvement_correct :
    eiScores [90, 100] [5, 0] 100 0.01 =
      [(100 - 90 - 0.01) * normCdf ((100 - 90 - 0.01) / 5) +
        5 * normPdf ((100 - 90 - 0.01) / 5), 0] ∧
      0 < (eiScores [90, 100] [5, 0] 100 0.01).getD 0 0 ∧
      (eiScores [90, 100] [5, 0] 100 0.01).getD 1 0 = 0 ∧
      acquisitionExpectedImprovement [90, 100] [5, 0] 100 0.01 = 0 := by
  have hA : (0 : ℝ) <
      (100 - 90 - 0.01) * normCdf ((100 - 90 - 0.01) / 5) +
        5 * normPdf ((100 - 90 - 0.01) / 5) := by
    have h1 : (0 : ℝ) ≤ (100 - 90 - 0.01) * normCdf ((100 - 90 - 0.01) / 5) :=
      mul_nonneg (by norm_num) (normCdf_nonneg _)
    have h2 : (0 : ℝ) < 5 * normPdf ((100 - 90 - 0.01) / 5) :=
      mul_pos (by norm_num) (normPdf_pos _)
    linarith
  have hlist : eiScores [90, 100] [5, 0] 100 0.01 =
      [(100 - 90 - 0.01) * normCdf ((100 - 90 - 0.01) / 5) +
        5 * normPdf ((100 - 90 - 0.01) / 5), 0] := by
    rw [eiScores]
    norm_num
  refine ⟨hlist, ?_, ?_, ?_⟩
  · rw [hlist]
    simpa using hA
  · rw [hlist]
    simp
  · rw [acquisitionExpectedImprovement, hlist, argmaxList, argmaxFrom,
      if_neg (not_lt.mpr hA.le), argmaxFrom]

/-- C8 (counterexample): when every candidate has std = 0 the selection is
not a uniform random choice among the candidates: every EI score is masked
to 0 and argmax deterministically returns index 0, the first candidate,
whatever the means are; max-uncertainty likewise returns index 0. -/
theorem degenerate_acquisition_cex :
    eiScores [5, 1, 3] [0, 0, 0] 100 0.01 = [0, 0, 0] ∧
      acquisitionExpectedImprovement [5, 1, 3] [0, 0, 0] 100 0.01 = 0 ∧
      acquisitionExpectedImprovement [1, 5, 3] [0, 0, 0] 100 0.01 = 0 ∧
      acquisitionMaxUncertainty [0, 0, 0] = 0 := by
  refine ⟨?_, ?_, ?_, ?_⟩
  · rw [eiScores]; norm_num
  · rw [acquisitionExpectedImprovement, eiScores]
    norm_num
    rw [argmaxList, argmaxFrom, if_neg (lt_irrefl 0), argmaxFrom,
      if_neg (lt_irrefl 0), argmaxFrom]
  · rw [acquisitionExpectedImprovement, eiScores]
    norm_num
    rw [argmaxList, argmaxFrom, if_neg (lt_irrefl 0), argmaxFrom,
      if_neg (lt_irrefl 0), argmaxFrom]
  · rw [acquisitionMaxUncertainty, argmaxList, argmaxFrom,
      if_neg (lt_irrefl 0), argmaxFrom, if_neg (lt_irrefl 0), argmaxFrom]

lemma argmaxFrom_replicate_zero :
    ∀ (j i best : ℕ), argmaxFrom (List.replicate j (0 : ℝ)) i best 0 = best := by
  intro j
  induction j with
  | zero => intro i best; rw [List.replicate, argmaxFrom]
  | succ m ih =>
      intro i best
      rw [List.replicate, argmaxFrom, if_neg (lt_irrefl 0)]
      exact ih _ _

lemma eiScores_all_zero (yBest xi : ℝ) :
    ∀ (mu sigma : List ℝ), (∀ s ∈ sigma, s = 0) →
      eiScores mu sigma yBest xi = List.replicate (min mu.length sigma.length) 0 := by
  intro mu
  induction mu with
  | nil => intro sigma _; simp [eiScores]
  | cons m mus ih =>
      intro sigma hall
      cases sigma with
      | nil => simp [eiScores]
      | cons s sigs =>
          have hs : s = 0 := hall s (List.mem_cons_self s sigs)
          have htail := ih sigs fun t ht => hall t (List.mem_cons_of_mem s ht)
          rw [eiScores] at htail ⊢
          simp only [List.zipWith_cons_cons, List.length_cons, hs, if_pos rfl]
          rw [htail]
          have : min (mus.length + 1) (sigs.length + 1) = min mus.length sigs.length + 1 := by
            omega
          rw [this, List.replicate]
          simp

/-- C8 (amended): when every candidate in the pool has predicted std = 0,
every EI selection score is exactly 0 (not NaN, and no score is produced
by a division by zero, since the masking overwrites those entries) and the
acquisition deterministically selects index 0, the first candidate, rather
than a uniform random choice among the candidates. -/
theorem degenerate_acquisition_first_index (mu sigma : List ℝ) (yBest xi : ℝ)
    (hall : ∀ s ∈ sigma, s = 0) :
    eiScores mu sigma yBest xi = List.replicate (min mu.length sigma.length) 0 ∧
      acquisitionExpectedImprovement mu sigma yBest xi = 0 := by
  have hz := eiScores_all_zero yBest xi mu sigma hall
  refine ⟨hz, ?_⟩
  rw [acquisitionExpectedImprovement, hz]
  cases hmin : min mu.length sigma.length with
  | zero => rw [List.replicate, argmaxList]
  | succ k =>
      rw [List.replicate, argmaxList]
      exact argmaxFrom_replicate_zero k 1 0

/-- Witness for the amended C8 theorem on the concrete degenerate pool
with means [1, 2] and stds [0, 0]. -/
theorem degenerate_acquisition_first_index_witness :
    eiScores [1, 2] [0, 0] 100 0.01 =
        List.replicate (min ([(1 : ℝ), 2] : List ℝ).length
          ([(0 : ℝ), 0] : List ℝ).length) 0 ∧
      acquisitionExpectedImprovement [1, 2] [0, 0] 100 0.01 = 0 :=
  degenerate_acquisition_first_index [1, 2] [0, 0] 100 0.01 (by simp)

/-- Embedding of the Gaussian likelihood of bayesian_fault_detection
(fault_detection_bayesian.py line 216, new_jersey_fault_detection.py line
201): L = exp(-0.5 * ((prediction - observed) / noise) ^ 2). -/
noncomputable def gaussLikelihood (observed noise pred : ℝ) : ℝ :=
  Real.exp (-0.5 * ((pred - observed) / noise) ^ 2)

/-- Selection of the entries of xs whose mask entry is true: the numpy
boolean-mask indexing prior_samples[accepted]. -/
def maskSelect {α : Type} (xs : List α) (mask : List Bool) : List α :=
  ((xs.zip mask).filter fun t => t.2).map fun t => t.1

/-- Proposal pool of bayesian_fault_detection (line 209): 10 times the
target count of uniform draws from the declared bounds 0.5 to 2.0 of the
infiltration multiplier. -/
noncomputable def priorPool (nPosterior : ℕ) (unitPrior : ℕ → ℝ) : List ℝ :=
  (List.range (nPosterior * 10)).map fun i => scaleUnit 0.5 2 (unitPrior i)

/-- Unnormalized likelihood of every proposal (lines 212 to 216): predict
the outcome of each proposal with the surrogate, then apply the Gaussian
likelihood with the hardcoded observation noise 5000. -/
noncomputable def likeList (m : ℝ → ℝ) (observed : ℝ) (pool : List ℝ) : List ℝ :=
  (pool.map m).map (gaussLikelihood observed 5000)

/-- Acceptance probabilities (line 219): likelihood / likelihood.max(). -/
noncomputable def acceptProbs (like : List ℝ) : List ℝ :=
  like.map fun L => L / listMax like

/-- Embedding of FaultDetector.bayesian_fault_detection (lines 205 to
227), identically NewJerseyFaultDetector.detect_fault (lines 195 to 211):
draw the proposal pool, compute the acceptance probabilities, accept
proposal i when the uniform draw acceptDraw i falls strictly below its
acceptance probability, and return the accepted proposals truncated to
the first n. -/
noncomputable def bayesianFaultDetection (m : ℝ → ℝ) (observed : ℝ) (n : ℕ)
    (unitPrior acceptDraw : ℕ → ℝ) : List ℝ :=
  (maskSelect (priorPool n unitPrior)
      (List.zipWith (fun u r => decide (u < r))
        ((List.range (n * 10)).map acceptDraw)
        (acceptProbs (likeList m observed (priorPool n unitPrior))))).take n

/-- Modelled from the spec, section 4.6 steps 4 and 5: collect accepted
vectors one proposal at a time until N_target are accumulated or the
proposals are exhausted.  Each triple carries (proposal, acceptance
probability, uniform draw); a proposal is accepted when its draw falls
below its acceptance probability. -/
noncomputable def specCollectAccepted : ℕ → List (ℝ × ℝ × ℝ) → List ℝ
  | _, [] => []
  | 0, _ :: _ => []
  | n + 1, t :: rest =>
      if t.2.2 < t.2.1 then t.1 :: specCollectAccepted n rest
      else specCollectAccepted (n + 1) rest

/-- Modelled from the spec, section 4.6: draw a pool of 10 times the
target count uniformly from the declared bounds, compute the unnormalized
likelihood exp(-0.5 * ((mean - observed) / noise) ^ 2) of every proposal
through the surrogate, normalize by the maximal likelihood, and collect
the proposals accepted with probability L / max(L) until the target count
is accumulated or the pool is exhausted. -/
noncomputable def specEstimatePosterior (m : ℝ → ℝ) (observed noise lb ub : ℝ)
    (nTarget : ℕ) (unitPrior acceptDraw : ℕ → ℝ) : List ℝ :=
  let proposals := (List.range (nTarget * 10)).map fun i => scaleUnit lb ub (unitPrior i)
  let like := proposals.map fun p => Real.exp (-0.5 * ((m p - observed) / noise) ^ 2)
  let acceptProb := like.map fun L => L / listMax like
  let draws := (List.range (nTarget * 10)).map acceptDraw
  specCollectAccepted nTarget (proposals.zip (acceptProb.zip draws))

lemma maskSelect_cons {α : Type} (p : α) (ps : List α) (b : Bool) (mask : List Bool) :
    maskSelect (p :: ps) (b :: mask) =
      if b then p :: maskSelect ps mask else maskSelect ps mask := by
  cases b <;> simp [maskSelect]

lemma maskSelect_take_eq_collect :
    ∀ (ps rs us : List ℝ) (n : ℕ),
      (maskSelect ps (List.zipWith (fun u r => decide (u < r)) us rs)).take n =
        specCollectAccepted n (ps.zip (rs.zip us)) := by
  intro ps
  induction ps with
  | nil => intro rs us n; simp [maskSelect, specCollectAccepted]
  | cons p ps ih =>
      intro rs us n
      cases rs with
      | nil => simp [maskSelect, specCollectAccepted]
      | cons r rs =>
          cases us with
          | nil => simp [maskSelect, specCollectAccepted]
          | cons u us =>
              rw [List.zipWith_cons_cons, maskSelect_cons]
              by_cases hur : u < r
              · have hb : decide (u < r) = true := decide_eq_true hur
                rw [hb, if_pos rfl]
                cases n with
                | zero => simp [specCollectAccepted]
                | succ k =>
                    rw [List.take_succ_cons]
                    have hcol : specCollectAccepted (k + 1)
                        ((p, r, u) :: ps.zip (rs.zip us)) =
                        p :: specCollectAccepted k (ps.zip (rs.zip us)) := by
                      rw [specCollectAccepted, if_pos hur]
                    rw [List.zip_cons_cons, List.zip_cons_cons, hcol, ih]
              · have hb : decide (u < r) = false := decide_eq_false hur
                rw [hb, if_neg (by simp)]
                cases n with
                | zero =>
                    simp [specCollectAccepted]
                | succ k =>
                    have hcol : specCollectAccepted (k + 1)
                        ((p, r, u) :: ps.zip (rs.zip us)) =
                        specCollectAccepted (k + 1) (ps.zip (rs.zip us)) := by
                      rw [specCollectAccepted, if_neg hur]
                    rw [List.zip_cons_cons, List.zip_cons_cons, hcol, ih]

/-- C1: the posterior estimator of bayesian_fault_detection implements
the rejection sampling described by the spec: it draws a proposal pool of
10 times the target count uniformly from the declared bounds, computes
the unnormalized likelihood exp(-0.5 * ((mean - observed) /
observation_noise) ^ 2) with the configured noise 5000, accepts each
proposal independently with probability L / max(L), and returns the
accepted vectors truncated to the first n, which coincides with the
spec-worded collect-until-target-or-exhausted procedure. -/
theorem bayesian_fault_detection_matches_spec (m : ℝ → ℝ) (observed : ℝ)
    (n : ℕ) (unitPrior acceptDraw : ℕ → ℝ) :
    bayesianFaultDetection m observed n unitPrior acceptDraw =
      specEstimatePosterior m observed 5000 0.5 2 n unitPrior acceptDraw := by
  rw [bayesianFaultDetection, maskSelect_take_eq_collect]
  simp only [specEstimatePosterior, priorPool, likeList, acceptProbs,
    gaussLikelihood, List.map_map, Function.comp_def]

lemma foldl_max_mem : ∀ (l : List ℝ) (a : ℝ), l.foldl max a ∈ a :: l := by
  intro l
  induction l with
  | nil => intro a; simp
  | cons b l ih =>
      intro a
      have h := ih (max a b)
      rw [List.foldl_cons]
      rcases List.mem_cons.mp h with h | h
      · rcases max_choice a b with hm | hm
        · exact List.mem_cons.mpr (Or.inl (h.trans hm))
        · exact List.mem_cons.mpr (Or.inr (List.mem_cons.mpr (Or.inl (h.trans hm))))
      · exact List.mem_cons.mpr (Or.inr (List.mem_cons.mpr (Or.inr h)))

lemma listMax_mem (xs : List ℝ) (h : xs ≠ []) : listMax xs ∈ xs := by
  cases xs with
  | nil => exact absurd rfl h
  | cons a l =>
      have : listMax (a :: l) = l.foldl max a := by
        rw [listMax, List.max?_cons']
        rfl
      rw [this]
      exact foldl_max_mem l a

lemma likeList_pos (m : ℝ → ℝ) (observed : ℝ) (pool : List ℝ) :
    ∀ x ∈ likeList m observed pool, 0 < x := by
  intro x hx
  rw [likeList] at hx
  rcases List.mem_map.mp hx with ⟨y, _, rfl⟩
  exact Real.exp_pos _

lemma maskSelect_ne_nil {α : Type} (xs : List α) (mask : List Bool) (i : ℕ)
    (hx : i < xs.length) (hm : i < mask.length) (ht : mask[i] = true) :
    maskSelect xs mask ≠ [] := by
  intro hcontra
  rw [maskSelect] at hcontra
  have hfil := List.map_eq_nil_iff.mp hcontra
  have hz : i < (xs.zip mask).length := by
    rw [List.length_zip]
    omega
  have hmem : (xs[i], mask[i]) ∈ xs.zip mask := by
    have hget : (xs.zip mask)[i] = (xs[i], mask[i]) := List.getElem_zip
    rw [← hget]
    exact List.getElem_mem hz
  have := List.filter_eq_nil_iff.mp hfil _ hmem
  rw [ht] at this
  simp at this

/-- C10: the proposal attaining the maximal likelihood receives acceptance
probability max(L) / max(L) = 1, and since the uniform acceptance draws
are below 1 it is always accepted, so for a positive target count the
returned posterior of bayesian_fault_detection is never empty, however
incompatible the observed outcome is with the surrogate. -/
theorem posterior_contains_max_likelihood_proposal (m : ℝ → ℝ) (observed : ℝ)
    (n : ℕ) (unitPrior acceptDraw : ℕ → ℝ) (hn : 1 ≤ n)
    (hdraw : ∀ i, acceptDraw i < 1) :
    bayesianFaultDetection m observed n unitPrior acceptDraw ≠ [] := by
  rw [bayesianFaultDetection]
  have hpoollen : (priorPool n unitPrior).length = n * 10 := by
    simp [priorPool]
  have hlikelen : (likeList m observed (priorPool n unitPrior)).length = n * 10 := by
    simp [likeList, hpoollen]
  have hlike_ne : likeList m observed (priorPool n unitPrior) ≠ [] := by
    intro hcon
    rw [hcon] at hlikelen
    simp at hlikelen
    omega
  have hmax_mem := listMax_mem _ hlike_ne
  have hmax_pos : 0 < listMax (likeList m observed (priorPool n unitPrior)) :=
    likeList_pos m observed _ _ hmax_mem
  rcases List.mem_iff_getElem.mp hmax_mem with ⟨i, hi, hieq⟩
  have hdrawlen : (((List.range (n * 10)).map acceptDraw)).length = n * 10 := by
    simp
  have hproblen :
      (acceptProbs (likeList m observed (priorPool n unitPrior))).length = n * 10 := by
    simp [acceptProbs, hlikelen]
  have hmasklen :
      (List.zipWith (fun u r => decide (u < r))
        ((List.range (n * 10)).map acceptDraw)
        (acceptProbs (likeList m observed (priorPool n unitPrior)))).length = n * 10 := by
    rw [List.length_zipWith, hdrawlen, hproblen]
    omega
  have hi10 : i < n * 10 := by
    rw [hlikelen] at hi
    exact hi
  have hilt : i < (List.zipWith (fun u r => decide (u < r))
      ((List.range (n * 10)).map acceptDraw)
      (acceptProbs (likeList m observed (priorPool n unitPrior)))).length := by
    rw [hmasklen]
    omega
  have hiprob : i < (acceptProbs (likeList m observed (priorPool n unitPrior))).length := by
    rw [hproblen]
    omega
  have hidraw : i < (((List.range (n * 10)).map acceptDraw)).length := by
    rw [hdrawlen]
    omega
  have hmaski : (List.zipWith (fun u r => decide (u < r))
      ((List.range (n * 10)).map acceptDraw)
      (acceptProbs (likeList m observed (priorPool n unitPrior))))[i] = true := by
    rw [List.getElem_zipWith]
    have hprob : (acceptProbs (likeList m observed (priorPool n unitPrior)))[i] =
        1 := by
      simp only [acceptProbs, List.getElem_map]
      rw [hieq, div_self (ne_of_gt hmax_pos)]
    rw [hprob, List.getElem_map]
    exact decide_eq_true (hdraw _)
  have hsel_ne := maskSelect_ne_nil (priorPool n unitPrior) _ i (by omega) (by omega) hmaski
  intro hcon
  rcases List.take_eq_nil_iff.mp hcon with h | h
  · omega
  · exact hsel_ne h

/-- Witness for the C10 theorem: constant surrogate prediction 0 against
the wildly incompatible observed outcome 1000000, target count 1, all
acceptance draws equal to one half. -/
theorem posterior_contains_max_likelihood_proposal_witness :
    bayesianFaultDetection (fun _ => 0) 1000000 1 (fun _ => 0) (fun _ => 1/2) ≠ [] :=
  posterior_contains_max_likelihood_proposal (fun _ => 0) 1000000 1 (fun _ => 0)
    (fun _ => 1/2) (by norm_num) (fun i => by norm_num)

lemma maskSelect_sublist {α : Type} : ∀ (xs : List α) (mask : List Bool),
    List.Sublist (maskSelect xs mask) xs := by
  intro xs
  induction xs with
  | nil => intro mask; simp [maskSelect]
  | cons x xs ih =>
      intro mask
      cases mask with
      | nil => simp [maskSelect]
      | cons b mask =>
          rw [maskSelect_cons]
          cases b with
          | false =>
              rw [if_neg (by simp)]
              exact (ih mask).cons x
          | true =>
              rw [if_pos rfl]
              exact (ih mask).cons₂ x

/-- C5 (amended): when rejection sampling accepts fewer proposals than the
target count, bayesian_fault_detection silently returns the short list: it
always returns a subsequence of the proposal pool of length at most the
target count, and no InsufficientAcceptanceError or any other failure
channel exists in the code. -/
theorem posterior_truncated_silently (m : ℝ → ℝ) (observed : ℝ) (n : ℕ)
    (unitPrior acceptDraw : ℕ → ℝ) :
    (bayesianFaultDetection m observed n unitPrior acceptDraw).length ≤ n ∧
      List.Sublist (bayesianFaultDetection m observed n unitPrior acceptDraw)
        (priorPool n unitPrior) := by
  constructor
  · rw [bayesianFaultDetection, List.length_take]
    omega
  · rw [bayesianFaultDetection]
    exact (List.take_sublist _ _).trans (maskSelect_sublist _ _)

/-- Surrogate of the C5 counterexample: prediction 0 at the proposal 1.0
and the wildly incompatible prediction 100000 everywhere else. -/
noncomputable def surrogateCex : ℝ → ℝ := fun x => if x = 1 then 0 else 100000

/-- Unit prior draws of the C5 counterexample: the first proposal scales
to 1.0, every other proposal scales to 0.5. -/
noncomputable def unitPriorCex : ℕ → ℝ := fun i => if i = 0 then 1/3 else 0

lemma pool_cex : priorPool 2 unitPriorCex = (1 : ℝ) :: List.replicate 19 (1/2) := by
  rw [priorPool]
  show (List.range 20).map _ = _
  rw [List.range_succ_eq_map, List.map_cons, List.map_map]
  congr 1
  · norm_num [scaleUnit, unitPriorCex]
  · have hcongr : (List.range 19).map
        ((fun i => scaleUnit 0.5 2 (unitPriorCex i)) ∘ Nat.succ) =
        (List.range 19).map (fun _ : ℕ => (1 : ℝ)/2) := by
      refine List.map_congr_left ?_
      intro a _
      simp [Function.comp, unitPriorCex, Nat.succ_ne_zero, scaleUnit]
      norm_num
    rw [hcongr, List.map_const', List.length_range]

lemma like_cex : likeList surrogateCex 0 (priorPool 2 unitPriorCex) =
    (1 : ℝ) :: List.replicate 19 (Real.exp (-200)) := by
  rw [pool_cex, likeList]
  rw [List.map_cons, List.map_replicate, List.map_cons, List.map_replicate]
  congr 1
  · show gaussLikelihood 0 5000 (surrogateCex 1) = 1
    rw [surrogateCex]
    norm_num [gaussLikelihood, Real.exp_zero]
  · congr 1
    show gaussLikelihood 0 5000 (surrogateCex (1/2)) = Real.exp (-200)
    rw [surrogateCex]
    norm_num [gaussLikelihood]

lemma foldl_max_replicate : ∀ (k : ℕ) (a b : ℝ), b ≤ a →
    (List.replicate k b).foldl max a = a := by
  intro k
  induction k with
  | zero => intro a b _; rfl
  | succ j ih =>
      intro a b hba
      rw [List.replicate_succ, List.foldl_cons, max_eq_left hba]
      exact ih a b hba

lemma exp_neg_two_hundred_lt_half : Real.exp (-200) < 1 / 2 := by
  have h1 : (201 : ℝ) ≤ Real.exp 200 := by
    have h := Real.add_one_le_exp (200 : ℝ)
    linarith
  have h2 : (0 : ℝ) < Real.exp 200 := Real.exp_pos 200
  rw [Real.exp_neg]
  have h3 : (Real.exp 200)⁻¹ ≤ (201 : ℝ)⁻¹ := by
    apply inv_anti₀
    · norm_num
    · exact h1
  have h4 : ((201 : ℝ))⁻¹ < 1 / 2 := by norm_num
  linarith

lemma listMax_cex : listMax ((1 : ℝ) :: List.replicate 19 (Real.exp (-200))) = 1 := by
  have h : listMax ((1 : ℝ) :: List.replicate 19 (Real.exp (-200))) =
      (List.replicate 19 (Real.exp (-200))).foldl max 1 := by
    rw [listMax, List.max?_cons']
    rfl
  rw [h]
  exact foldl_max_replicate 19 1 _
    (le_of_lt (lt_trans exp_neg_two_hundred_lt_half (by norm_num)))

lemma probs_cex : acceptProbs ((1 : ℝ) :: List.replicate 19 (Real.exp (-200))) =
    (1 : ℝ) :: List.replicate 19 (Real.exp (-200)) := by
  rw [acceptProbs, listMax_cex]
  simp [div_one]

lemma maskSelect_replicate_false {α : Type} : ∀ (xs : List α) (k : ℕ),
    maskSelect xs (List.replicate k false) = [] := by
  intro xs
  induction xs with
  | nil => intro k; simp [maskSelect]
  | cons x xs ih =>
      intro k
      cases k with
      | zero => simp [maskSelect]
      | succ j =>
          rw [List.replicate_succ, maskSelect_cons, if_neg (by simp)]
          exact ih j

/-- C5 (counterexample): with target count 2 and a surrogate compatible
with the observed outcome at only one proposal of the 20-proposal pool,
bayesian_fault_detection silently returns the single accepted sample [1.0]
— a posterior smaller than the target — and raises no
InsufficientAcceptanceError (no such error exists anywhere in the code). -/
theorem insufficient_acceptance_cex :
    bayesianFaultDetection surrogateCex 0 2 unitPriorCex (fun _ => 1/2) = [1] ∧
      (bayesianFaultDetection surrogateCex 0 2 unitPriorCex (fun _ => 1/2)).length < 2 := by
  have hmain : bayesianFaultDetection surrogateCex 0 2 unitPriorCex (fun _ => 1/2) = [1] := by
    rw [bayesianFaultDetection, like_cex, probs_cex, pool_cex]
    have hdraws : (List.range (2 * 10)).map (fun _ : ℕ => (1 : ℝ)/2) =
        (1 : ℝ)/2 :: List.replicate 19 (1/2) := by
      rw [List.map_const', List.length_range]
      rfl
    rw [hdraws, List.zipWith_cons_cons, List.zipWith_replicate']
    have hb1 : decide ((1 : ℝ)/2 < 1) = true := decide_eq_true (by norm_num)
    have hb2 : decide ((1 : ℝ)/2 < Real.exp (-200)) = false :=
      decide_eq_false (by have := exp_neg_two_hundred_lt_half; linarith)
    rw [hb1, hb2, maskSelect_cons, if_pos rfl, maskSelect_replicate_false]
    rfl
  exact ⟨hmain, by rw [hmain]; norm_num⟩

/-- Columns of the counterfactual results DataFrame of
FaultDetector.counterfactual_analysis, plus the printed leak
probability. -/
structure CounterfactualResult where
  faultyEnergy : List ℝ
  fixedEnergy : List ℝ
  energySavings : List ℝ
  costSavings : List ℝ
  leakProb : ℝ

/-- Embedding of FaultDetector.counterfactual_analysis
(fault_detection_bayesian.py lines 229 to 285, identically
NewJerseyFaultDetector.counterfactual_savings lines 213 to 255): predict
the surrogate at every posterior sample (faulty state) and at the fixed
vector np.ones_like(posterior_samples), that is the infiltration
multiplier clamped to 1.0; energy savings are the elementwise difference
faulty - fixed, cost savings scale by the electricity rate, and the
reported leak probability is the fraction of posterior samples with
infiltration multiplier above 1.1, in percent. -/
noncomputable def counterfactualAnalysis (m : ℝ → ℝ) (posterior : List ℝ)
    (electricityRate : ℝ) : CounterfactualResult :=
  let faulty := posterior.map m
  let fixedSamples := posterior.map fun _ => (1 : ℝ)
  let fixed := fixedSamples.map m
  let savings := List.zipWith (fun a b => a - b) faulty fixed
  { faultyEnergy := faulty
    fixedEnergy := fixed
    energySavings := savings
    costSavings := savings.map fun s => s * electricityRate
    leakProb := ((posterior.filter fun p => decide ((1.1 : ℝ) < p)).length : ℝ) /
      (posterior.length : ℝ) * 100 }

/-- C7 (counterexample): for the constant surrogate and the posterior
[1.2, 1.2], every savings delta is 0 — so P(delta > t) = 0 for every
nonnegative threshold t, witnessed here at t = 0 — yet the probability the
code reports is 100, because it is computed from the parameter condition
infiltration_mult > 1.1 and not from the savings distribution. -/
theorem counterfactual_reported_prob_cex :
    (counterfactualAnalysis (fun _ => 0) [1.2, 1.2] 0.1).energySavings = [0, 0] ∧
      ((counterfactualAnalysis (fun _ => 0) [1.2, 1.2] 0.1).energySavings.filter
        fun d => decide ((0 : ℝ) < d)) = [] ∧
      (counterfactualAnalysis (fun _ => 0) [1.2, 1.2] 0.1).leakProb = 100 := by
  refine ⟨?_, ?_, ?_⟩
  · simp [counterfactualAnalysis]
  · simp [counterfactualAnalysis]
  · rw [counterfactualAnalysis]
    have h12 : decide ((1.1 : ℝ) < 1.2) = true := decide_eq_true (by norm_num)
    simp only [List.filter, h12]
    norm_num

/-- C7 (amended): for each accepted posterior vector the counterfactual
computation evaluates the surrogate both at that vector and at the fixed
no-fault vector with the infiltration multiplier clamped to 1.0, computes
delta = faulty - fixed per sample and the corresponding cost savings, and
reports, alongside the savings distribution summaries, the probability
P(infiltration_mult > 1.1) over the posterior parameters — a leak
probability on the parameter, not P(delta > threshold) on the savings. -/
theorem counterfactual_savings_structure (m : ℝ → ℝ) (posterior : List ℝ)
    (rate : ℝ) :
    (counterfactualAnalysis m posterior rate).faultyEnergy = posterior.map m ∧
      (counterfactualAnalysis m posterior rate).fixedEnergy =
        posterior.map (fun _ => m 1) ∧
      (counterfactualAnalysis m posterior rate).energySavings =
        posterior.map (fun p => m p - m 1) ∧
      (counterfactualAnalysis m posterior rate).costSavings =
        posterior.map (fun p => (m p - m 1) * rate) ∧
      (counterfactualAnalysis m posterior rate).leakProb =
        ((posterior.filter fun p => decide ((1.1 : ℝ) < p)).length : ℝ) /
          (posterior.length : ℝ) * 100 := by
  have hsav : (counterfactualAnalysis m posterior rate).energySavings =
      posterior.map (fun p => m p - m 1) := by
    show List.zipWith (fun a b => a - b) (posterior.map m)
        ((posterior.map fun _ => (1 : ℝ)).map m) = _
    rw [List.map_map]
    have hz := List.zipWith_map (fun a b => a - b) m (m ∘ fun _ => (1 : ℝ))
      posterior posterior
    rw [hz, List.zipWith_same]
    simp [Function.comp]
  refine ⟨rfl, ?_, hsav, ?_, rfl⟩
  · show (posterior.map fun _ => (1 : ℝ)).map m = _
    rw [List.map_map]
    rfl
  · show ((counterfactualAnalysis m posterior rate).energySavings).map
        (fun s => s * rate) = _
    rw [hsav, List.map_map]
    rfl

end Calib
